import Mathlib

/-!
Shallow embedding of `seqtrace/core/consens.py` (SeqTrace consensus core):
the settings store (`ConsensSeqSettings`), the consensus builder column
algorithms (single-sequence, Bayesian, legacy), quality trimming
(`trimConsensus`), and the editable consensus layer
(`ModifiableConsensSeqBuilder`) with its undo/redo stacks.

Python mutable state is passed explicitly; `notifyObservers` calls are
modelled as event lists; a raised exception is modelled as an error flag
returned together with the state reached at the moment of the raise
(every raise in the source happens before any mutation of the object).
Floating-point arithmetic of the Bayesian algorithm is modelled over `ℝ`.
-/

/- ----------------------------------------------------------------- -/
/- Settings store: `ConsensSeqSettings` (consens.py lines 26-140).    -/
/- ----------------------------------------------------------------- -/

/-- Events published through `Observable.notifyObservers` by the settings
store.  Payloads that no claim depends on are dropped; the payload of
`min_confscore_change` (new value, old value) is kept. -/
inductive SettingsEvent : Type where
  | settings_change : SettingsEvent
  | min_confscore_change : Int → Int → SettingsEvent
  | autotrim_change : SettingsEvent
  | consensus_algorithm_change : SettingsEvent
deriving DecidableEq

/-- The mutable fields of a `ConsensSeqSettings` object, including the
`notify_all` batch flag and the `change_made` flag used by `setAll`. -/
structure ConsensSeqSettings : Type where
  min_confscore : Int
  consensus_algorithm : String
  do_autotrim : Bool
  autotrim_winsize : Int
  autotrim_basecnt : Int
  trim_endgaps : Bool
  notify_all : Bool
  change_made : Bool
deriving DecidableEq

/-- The state of a `ConsensSeqSettings` object right after `__init__`. -/
def initialSettings : ConsensSeqSettings where
  min_confscore := 30
  consensus_algorithm := "Bayesian"
  do_autotrim := true
  autotrim_winsize := 10
  autotrim_basecnt := 8
  trim_endgaps := true
  notify_all := true
  change_made := false

/-- Result of running one setter (or `setAll`): the state of the object
when control returns to the caller, the events published, and whether a
`ConsensSeqSettingsError` was raised.  Every raise in the source occurs
before any field mutation, so on `err = true` the state is the state at
the moment of the raise. -/
structure SetResult : Type where
  st : ConsensSeqSettings
  evs : List SettingsEvent
  err : Bool
deriving DecidableEq

/-- `ConsensSeqSettings.setMinConfScore` (lines 74-85). -/
def setMinConfScore (s : ConsensSeqSettings) (newval : Int) : SetResult :=
  if newval > 61 ∨ newval < 1 then ⟨s, [], true⟩
  else if s.min_confscore ≠ newval then
    let oldval := s.min_confscore
    let s1 := { s with min_confscore := newval }
    if s1.notify_all then
      ⟨s1, [SettingsEvent.min_confscore_change newval oldval, SettingsEvent.settings_change], false⟩
    else
      ⟨{ s1 with change_made := true }, [SettingsEvent.min_confscore_change newval oldval], false⟩
  else ⟨s, [], false⟩

/-- `ConsensSeqSettings.setConsensusAlgorithm` (lines 90-100).  Note that
the accepted strings in the source are exactly `'Bayesian'` and
`'legacy'` (lower-case ell). -/
def setConsensusAlgorithm (s : ConsensSeqSettings) (newval : String) : SetResult :=
  if ¬(newval = "Bayesian" ∨ newval = "legacy") then ⟨s, [], true⟩
  else if s.consensus_algorithm ≠ newval then
    let s1 := { s with consensus_algorithm := newval }
    if s1.notify_all then
      ⟨s1, [SettingsEvent.consensus_algorithm_change, SettingsEvent.settings_change], false⟩
    else
      ⟨{ s1 with change_made := true }, [SettingsEvent.consensus_algorithm_change], false⟩
  else ⟨s, [], false⟩

/-- `ConsensSeqSettings.setDoAutoTrim` (lines 105-112). -/
def setDoAutoTrim (s : ConsensSeqSettings) (newval : Bool) : SetResult :=
  if s.do_autotrim ≠ newval then
    let s1 := { s with do_autotrim := newval }
    if s1.notify_all then
      ⟨s1, [SettingsEvent.autotrim_change, SettingsEvent.settings_change], false⟩
    else
      ⟨{ s1 with change_made := true }, [SettingsEvent.autotrim_change], false⟩
  else ⟨s, [], false⟩

/-- `ConsensSeqSettings.setAutoTrimParams` (lines 117-128). -/
def setAutoTrimParams (s : ConsensSeqSettings) (windowsize basecount : Int) : SetResult :=
  if basecount > windowsize then ⟨s, [], true⟩
  else if s.autotrim_winsize ≠ windowsize ∨ s.autotrim_basecnt ≠ basecount then
    let s1 := { s with autotrim_winsize := windowsize, autotrim_basecnt := basecount }
    if s1.notify_all then
      ⟨s1, [SettingsEvent.autotrim_change, SettingsEvent.settings_change], false⟩
    else
      ⟨{ s1 with change_made := true }, [SettingsEvent.autotrim_change], false⟩
  else ⟨s, [], false⟩

/-- `ConsensSeqSettings.setTrimEndGaps` (lines 133-140). -/
def setTrimEndGaps (s : ConsensSeqSettings) (newval : Bool) : SetResult :=
  if s.trim_endgaps ≠ newval then
    let s1 := { s with trim_endgaps := newval }
    if s1.notify_all then
      ⟨s1, [SettingsEvent.autotrim_change, SettingsEvent.settings_change], false⟩
    else
      ⟨{ s1 with change_made := true }, [SettingsEvent.autotrim_change], false⟩
  else ⟨s, [], false⟩

/-- The `try` body of `setAll`: the five setters run in order, and a
raise aborts the rest of the sequence. -/
def setAllBody (s : ConsensSeqSettings) (min_confscore : Int) (consensus_algorithm : String)
    (do_autotrim : Bool) (autotrim_params : Int × Int) (trim_endgaps : Bool) : SetResult :=
  let r1 := setMinConfScore s min_confscore
  if r1.err then r1 else
  let r2 := setConsensusAlgorithm r1.st consensus_algorithm
  if r2.err then ⟨r2.st, r1.evs ++ r2.evs, true⟩ else
  let r3 := setDoAutoTrim r2.st do_autotrim
  if r3.err then ⟨r3.st, r1.evs ++ r2.evs ++ r3.evs, true⟩ else
  let r4 := setAutoTrimParams r3.st autotrim_params.1 autotrim_params.2
  if r4.err then ⟨r4.st, r1.evs ++ r2.evs ++ r3.evs ++ r4.evs, true⟩ else
  let r5 := setTrimEndGaps r4.st trim_endgaps
  ⟨r5.st, r1.evs ++ r2.evs ++ r3.evs ++ r4.evs ++ r5.evs, r5.err⟩

/-- `ConsensSeqSettings.setAll` (lines 56-69): clear `notify_all` and
`change_made`, run the five setters, and in a `finally` block restore
`notify_all` and publish a single `settings_change` event if any setter
recorded a change; a raised error propagates (`err = true`). -/
def setAll (s : ConsensSeqSettings) (min_confscore : Int) (consensus_algorithm : String)
    (do_autotrim : Bool) (autotrim_params : Int × Int) (trim_endgaps : Bool) : SetResult :=
  let s0 := { s with notify_all := false, change_made := false }
  let body := setAllBody s0 min_confscore consensus_algorithm do_autotrim autotrim_params trim_endgaps
  ⟨{ body.st with notify_all := true },
   body.evs ++ (if body.st.change_made then [SettingsEvent.settings_change] else []),
   body.err⟩

/-- True for the field-specific change events; a setter publishes one of
these exactly when it actually changes a stored value. -/
def isFieldEvent : SettingsEvent → Bool
  | SettingsEvent.settings_change => false
  | _ => true

/- ----------------------------------------------------------------- -/
/- Single-sequence consensus (consens.py lines 369-390).              -/
/- ----------------------------------------------------------------- -/

/-- One loop iteration of `makeSingleConsensus`: the consensus base is
the trace's base call, replaced by `'N'` when the confidence score is
below the minimum; the score is recorded unmodified. -/
def singleColumn (a1 : Char) (s1 : Int) (min_confscore : Int) : Char × Int :=
  (if s1 < min_confscore then 'N' else a1, s1)

/-- `ConsensSeqBuilder.makeSingleConsensus`.  In single-sequence mode
`seq1indexed` is the identity map (line 172), so the confidence lookup
`seqt1.getBaseCallConf(seq1indexed[cnt])` is `conf1 cnt`. -/
def makeSingleConsensus (n : Nat) (seq1a : Nat → Char) (conf1 : Nat → Int)
    (min_confscore : Int) : List Char × List Int :=
  let cols := (List.range n).map fun cnt => singleColumn (seq1a cnt) (conf1 cnt) min_confscore
  (cols.map Prod.fst, cols.map Prod.snd)

/- ----------------------------------------------------------------- -/
/- Legacy consensus (consens.py lines 328-367).                       -/
/- ----------------------------------------------------------------- -/

/-- One loop iteration of `makeLegacyConsensus`.  A sequence whose
aligned character is a gap or `'N'` keeps the sentinel score `-1`.  The
Python locals `cbase`/`cbase2` are read only in branches where the
corresponding sequence is usable whenever `min_confscore ≥ 1` (since the
sentinel `-1` then never clears the threshold), so the branches below
substitute the aligned characters directly. -/
def legacyColumn (a1 a2 : Char) (s1 s2 : Int) (min_confscore : Int) : Char × Int :=
  let cscore : Int := if a1 ≠ '-' ∧ a1 ≠ 'N' then s1 else -1
  let cscore2 : Int := if a2 ≠ '-' ∧ a2 ≠ 'N' then s2 else -1
  let cbase : Char :=
    if cscore ≥ min_confscore then
      if cscore2 ≥ min_confscore then (if a1 ≠ a2 then 'N' else a1) else a1
    else if cscore2 ≥ min_confscore then a2
    else 'N'
  let cscoreUpd : Int :=
    if ¬(cscore ≥ min_confscore) ∧ cscore2 ≥ min_confscore then cscore2 else cscore
  (cbase, if cscoreUpd > cscore2 then cscoreUpd else cscore2)

/-- `ConsensSeqBuilder.makeLegacyConsensus`: per-column combination of
the two aligned sequences; `conf1`/`conf2` are the traces' confidence
lookups and `ind1`/`ind2` the alignment-to-trace index maps. -/
def makeLegacyConsensus (n : Nat) (seq1a seq2a : Nat → Char) (ind1 ind2 : Nat → Nat)
    (conf1 conf2 : Nat → Int) (min_confscore : Int) : List Char × List Int :=
  let cols := (List.range n).map fun cnt =>
    legacyColumn (seq1a cnt) (seq2a cnt) (conf1 (ind1 cnt)) (conf2 (ind2 cnt)) min_confscore
  (cols.map Prod.fst, cols.map Prod.snd)

/-- Column combination described by the specification of the legacy
algorithm: per-sequence scores with sentinel `-1` for gap/`'N'`
positions, base `'N'` on a high-confidence disagreement or when neither
sequence clears the threshold, and the larger of the two scores
recorded. -/
def legacyColumnSpec (a1 a2 : Char) (s1 s2 : Int) (min_confscore : Int) : Char × Int :=
  let sc1 : Int := if a1 ≠ '-' ∧ a1 ≠ 'N' then s1 else -1
  let sc2 : Int := if a2 ≠ '-' ∧ a2 ≠ 'N' then s2 else -1
  let base : Char :=
    if sc1 ≥ min_confscore ∧ sc2 ≥ min_confscore then (if a1 = a2 then a1 else 'N')
    else if sc1 ≥ min_confscore then a1
    else if sc2 ≥ min_confscore then a2
    else 'N'
  (base, max sc1 sc2)

/- ----------------------------------------------------------------- -/
/- Quality trimming: `trimConsensus` (consens.py lines 456-509).      -/
/- ----------------------------------------------------------------- -/

/-- The `base_to_int` mapping (line 460): correctly called bases count
1, `'N'` and space count 0.  The Python dict has no other keys; the
function totalizes it with 0 elsewhere. -/
def base_to_int (c : Char) : Int :=
  if c = 'A' ∨ c = 'C' ∨ c = 'G' ∨ c = 'T' then 1 else 0

/-- The left (5') trimming loop of `trimConsensus` (lines 473-477):
slide the window right until it holds `basecnt` good calls or hits the
right end; returns the final `index` and `num_good`. -/
def trimLeftLoop (consvals : List Int) (n winsize : Nat) (basecnt : Int)
    (num_good : Int) (index : Nat) : Nat × Int :=
  if h : num_good < basecnt ∧ index + winsize < n then
    trimLeftLoop consvals n winsize basecnt
      (num_good + consvals.getD (index + winsize) 0 - consvals.getD index 0) (index + 1)
  else (index, num_good)
termination_by n - index
decreasing_by omega

/-- The right (3') trimming loop of `trimConsensus` (lines 490-494):
slide the window left, never crossing `index_left`.  The Python `index`
can in principle reach `-1`, so it is an `Int` here. -/
def trimRightLoop (consvals : List Int) (winsize : Nat) (basecnt : Int)
    (index_left : Nat) (num_good : Int) (index : Int) : Int × Int :=
  if h : num_good < basecnt ∧ index - winsize ≥ index_left then
    trimRightLoop consvals winsize basecnt index_left
      (num_good + consvals.getD (index - winsize).toNat 0 - consvals.getD index.toNat 0) (index - 1)
  else (index, num_good)
termination_by (index + 1 - (index_left + winsize)).toNat
decreasing_by omega

/-- `ConsensSeqBuilder.trimConsensus`: no-op on a consensus shorter than
the window; otherwise compute the two cutoffs with the sliding windows
and either blank the whole sequence (not enough good bases anywhere) or
blank everything outside `[index_left, index_right]`. -/
def trimConsensus (consensus : List Char) (winsize : Nat) (basecnt : Int) : List Char :=
  if consensus.length < winsize then consensus
  else
    let consvals := consensus.map base_to_int
    let left := trimLeftLoop consvals consensus.length winsize basecnt
      ((consvals.take winsize).sum) 0
    let index_left := left.1
    let right := trimRightLoop consvals winsize basecnt index_left
      ((consvals.drop (consvals.length - winsize)).sum) ((consensus.length : Int) - 1)
    let index_right := right.1
    let num_good := right.2
    if num_good < basecnt then List.replicate consensus.length ' '
    else
      List.replicate index_left ' '
        ++ ((consensus.drop index_left).take (index_right.toNat + 1 - index_left))
        ++ List.replicate (consensus.length - (index_right.toNat + 1)) ' '

/- ----------------------------------------------------------------- -/
/- Editable consensus: `ModifiableConsensSeqBuilder` (lines 551-646). -/
/- ----------------------------------------------------------------- -/

/-- One entry of the undo or redo stack: a closed index range and the
substring it held before the mutation ("start"/"end"/"data" in the
source; `end` is a Lean keyword, hence `stop`). -/
structure UndoRecord : Type where
  start : Nat
  stop : Nat
  data : List Char
deriving DecidableEq

/-- The mutable state of a `ModifiableConsensSeqBuilder`: the consensus
character sequence and the two history stacks (top of stack first; the
Python lists push/pop at the tail). -/
structure ModState : Type where
  consensus : List Char
  undo_stack : List UndoRecord
  redo_stack : List UndoRecord
deriving DecidableEq

/-- Events published by the editable layer. -/
inductive ConsEvent : Type where
  | consensus_changed : Nat → Nat → ConsEvent
  | undo_state_changed : Bool → ConsEvent
  | redo_state_changed : Bool → ConsEvent
deriving DecidableEq

/-- Python slice `l[a:b+1]` for natural `a ≤ b`. -/
def pySlice (l : List Char) (a b : Nat) : List Char :=
  (l.drop a).take (b + 1 - a)

/-- Python `l[0:a] + mid + l[b+1:]`. -/
def replaceRange (l : List Char) (a b : Nat) (mid : List Char) : List Char :=
  l.take a ++ mid ++ l.drop (b + 1)

/-- `ModifiableConsensSeqBuilder.deleteBases` (lines 565-580): normalize
the range, push the prior substring on the undo stack, overwrite the
range with spaces, publish `consensus_changed` and, when the undo stack
just became non-empty, `undo_state_changed True`. -/
def deleteBases (st : ModState) (start_index end_index : Nat) : ModState × List ConsEvent :=
  let a := if start_index > end_index then end_index else start_index
  let b := if start_index > end_index then start_index else end_index
  let us := UndoRecord.mk a b (pySlice st.consensus a b) :: st.undo_stack
  let cons1 := replaceRange st.consensus a b (List.replicate (b - a + 1) ' ')
  (ModState.mk cons1 us st.redo_stack,
   ConsEvent.consensus_changed a b ::
     (if us.length = 1 then [ConsEvent.undo_state_changed true] else []))

/-- `ModifiableConsensSeqBuilder.modifyBases` (lines 582-600): like
`deleteBases` but overwriting with `newseq`; raises (error flag) when
`newseq` does not have the length of the normalized range, before any
mutation. -/
def modifyBases (st : ModState) (start_index end_index : Nat) (newseq : List Char) :
    ModState × List ConsEvent × Bool :=
  let a := if start_index > end_index then end_index else start_index
  let b := if start_index > end_index then start_index else end_index
  if newseq.length ≠ b - a + 1 then (st, [], true)
  else
    let us := UndoRecord.mk a b (pySlice st.consensus a b) :: st.undo_stack
    let cons1 := replaceRange st.consensus a b newseq
    (ModState.mk cons1 us st.redo_stack,
     (ConsEvent.consensus_changed a b ::
       (if us.length = 1 then [ConsEvent.undo_state_changed true] else []),
      false))

/-- `ModifiableConsensSeqBuilder.undo` (lines 613-628): pop the top undo
record, save the currently held range as a redo record, restore the
prior data, and publish the change plus the boundary-crossing stack
events. -/
def undo (st : ModState) : ModState × List ConsEvent :=
  match st.undo_stack with
  | [] => (st, [])
  | u :: rest =>
    let rs := UndoRecord.mk u.start u.stop (pySlice st.consensus u.start u.stop) :: st.redo_stack
    let cons1 := replaceRange st.consensus u.start u.stop u.data
    (ModState.mk cons1 rest rs,
     ConsEvent.consensus_changed u.start u.stop ::
       ((if rs.length = 1 then [ConsEvent.redo_state_changed true] else []) ++
        (if rest.length = 0 then [ConsEvent.undo_state_changed false] else [])))

/-- `ModifiableConsensSeqBuilder.redo` (lines 630-645): symmetric
inverse of `undo`. -/
def redo (st : ModState) : ModState × List ConsEvent :=
  match st.redo_stack with
  | [] => (st, [])
  | r :: rest =>
    let us := UndoRecord.mk r.start r.stop (pySlice st.consensus r.start r.stop) :: st.undo_stack
    let cons1 := replaceRange st.consensus r.start r.stop r.data
    (ModState.mk cons1 us rest,
     ConsEvent.consensus_changed r.start r.stop ::
       ((if us.length = 1 then [ConsEvent.undo_state_changed true] else []) ++
        (if rest.length = 0 then [ConsEvent.redo_state_changed false] else [])))

/- ----------------------------------------------------------------- -/
/- Bayesian consensus (consens.py lines 205-326), over ℝ.             -/
/- ----------------------------------------------------------------- -/

/-- The error probability `10.0 ** (score / -10.0)` of a Phred-type
quality score (line 294). -/
noncomputable def eprob (score : ℝ) : ℝ :=
  (10 : ℝ) ^ (score / (-10 : ℝ))

/-- `ConsensSeqBuilder.defineBasePrDist` (lines 287-300): probability
`1 - eprob` on the called base and `eprob / 3` on each other base. -/
noncomputable def defineBasePrDist (basecall : Char) (score : ℝ) : Char → ℝ :=
  fun base => if base = basecall then 1 - eprob score else eprob score / 3

/-- `ConsensSeqBuilder.calcPosteriorBasePrDist` (lines 302-326): prior
from the first call, conditional distribution from the second, shared
denominator summed over `('A', 'T', 'G', 'C')`. -/
noncomputable def calcPosteriorBasePrDist (base1 : Char) (score1 : ℝ) (base2 : Char)
    (score2 : ℝ) : Char → ℝ :=
  let prior := defineBasePrDist base1 score1
  let distdict := defineBasePrDist base2 score2
  let denom := distdict 'A' * prior 'A' + distdict 'T' * prior 'T'
    + distdict 'G' * prior 'G' + distdict 'C' * prior 'C'
  fun base => distdict base * prior base / denom

/-- `ConsensSeqBuilder.getMostProbableBase` (lines 258-285): start from
`'A'` and replace the candidate on a strictly greater probability, in
the order `('T', 'G', 'C')`; then the Phred-type transform of the
winning probability, plus the `0.000001` rounding guard. -/
noncomputable def getMostProbableBase (nppd : Char → ℝ) : Char × ℝ :=
  let c1 := if nppd 'T' > nppd 'A' then 'T' else 'A'
  let c2 := if nppd 'G' > nppd c1 then 'G' else c1
  let cbase := if nppd 'C' > nppd c2 then 'C' else c2
  let cscore := if nppd cbase > 0 then -10 * Real.logb 10 (1 - nppd cbase) else 0
  (cbase, cscore + 0.000001)

/-- One loop iteration of `makeBayesianConsensus` (lines 216-253): the
usability test, the three-way case split, and the threshold check that
replaces a low-confidence base with `'N'` while recording the computed
score. -/
noncomputable def bayesColumn (a1 a2 : Char) (s1 s2 : ℝ) (min_confscore : ℝ) : Char × ℝ :=
  let u1 := a1 ≠ '-' ∧ a1 ≠ 'N'
  let u2 := a2 ≠ '-' ∧ a2 ≠ 'N'
  let bs : Char × ℝ :=
    if u1 ∧ u2 then getMostProbableBase (calcPosteriorBasePrDist a1 s1 a2 s2)
    else if u1 then (a1, s1)
    else if u2 then (a2, s2)
    else ('N', 1)
  (if bs.2 ≥ min_confscore then bs.1 else 'N', bs.2)

/-- `ConsensSeqBuilder.makeBayesianConsensus` over the alignment
columns; `conf1`/`conf2` are the traces' confidence lookups and
`ind1`/`ind2` the alignment-to-trace index maps. -/
noncomputable def makeBayesianConsensus (n : Nat) (seq1a seq2a : Nat → Char)
    (ind1 ind2 : Nat → Nat) (conf1 conf2 : Nat → ℝ) (min_confscore : ℝ) :
    List Char × List ℝ :=
  let cols := (List.range n).map fun cnt =>
    bayesColumn (seq1a cnt) (seq2a cnt) (conf1 (ind1 cnt)) (conf2 (ind2 cnt)) min_confscore
  (cols.map Prod.fst, cols.map Prod.snd)

/-- The alphabet of an aligned sequence: bases, `'N'`, and the gap. -/
def alignChars : List Char :=
  ['A', 'C', 'G', 'T', 'N', '-']

/-- The per-base likelihood distribution as the specification words it:
for a call `b` with score `s`, error probability `e = 10 ^ (s / -10)`,
probability `1 - e` on `b` and `e/3` on each other base. -/
noncomputable def specCallDist (b : Char) (s : ℝ) : Char → ℝ :=
  fun x => if x = b then 1 - (10 : ℝ) ^ (s / (-10 : ℝ)) else ((10 : ℝ) ^ (s / (-10 : ℝ))) / 3

/-- The Bayes posterior as the specification words it: prior from
sequence 1's call, likelihood from sequence 2's call, denominator
`Σ_y likelihood[y] * prior[y]` over the four bases. -/
noncomputable def specPosterior (b1 : Char) (s1 : ℝ) (b2 : Char) (s2 : ℝ) : Char → ℝ :=
  fun x => specCallDist b2 s2 x * specCallDist b1 s1 x /
    ((['A', 'T', 'G', 'C'].map fun y => specCallDist b2 s2 y * specCallDist b1 s1 y).sum)

/-- The argmax of a distribution over the four bases with ties broken in
the fixed preference order A > T > G > C: the first base of that order
whose probability is at least every later one. -/
noncomputable def specArgmaxBase (p : Char → ℝ) : Char :=
  if p 'A' ≥ p 'T' ∧ p 'A' ≥ p 'G' ∧ p 'A' ≥ p 'C' then 'A'
  else if p 'T' ≥ p 'G' ∧ p 'T' ≥ p 'C' then 'T'
  else if p 'G' ≥ p 'C' then 'G'
  else 'C'

/-- The Phred-type transform of a posterior probability as the
specification words it: `-10 * log10(1 - p)`, or `0` if `p` is `0`,
plus the fixed epsilon `1e-6`. -/
noncomputable def specPhred (p : ℝ) : ℝ :=
  (if p = 0 then 0 else -10 * Real.logb 10 (1 - p)) + 0.000001

/-- One Bayesian-mode column as the specification words it: `('N', 1)`
when neither aligned character is usable, the usable sequence's call and
score verbatim when exactly one is, the posterior argmax and its
Phred-type score when both are; finally a below-threshold score records
`'N'` while the confidence entry keeps the computed score. -/
noncomputable def specBayesColumn (a1 a2 : Char) (s1 s2 : ℝ) (min_confscore : ℝ) : Char × ℝ :=
  let u1 := a1 ≠ '-' ∧ a1 ≠ 'N'
  let u2 := a2 ≠ '-' ∧ a2 ≠ 'N'
  let bs : Char × ℝ :=
    if u1 ∧ u2 then
      let cb := specArgmaxBase (specPosterior a1 s1 a2 s2)
      (cb, specPhred (specPosterior a1 s1 a2 s2 cb))
    else if u1 then (a1, s1)
    else if u2 then (a2, s2)
    else ('N', 1)
  (if bs.2 < min_confscore then 'N' else bs.1, bs.2)

/- ----------------------------------------------------------------- -/
/- Helper lemmas.                                                     -/
/- ----------------------------------------------------------------- -/

theorem getD_map_range {α : Type} (n i : Nat) (hi : i < n) (f : Nat → α) (d : α) :
    ((List.range n).map f).getD i d = f i := by
  simp [List.getD_eq_getElem?_getD, List.getElem?_map, List.getElem?_range, hi]

/- ----------------------------------------------------------------- -/
/- C9: accepted consensus-algorithm names.                            -/
/- ----------------------------------------------------------------- -/

/-- C9, counterexample: the claim says `setConsensusAlgorithm` raises
exactly on strings outside the enum names `{Bayesian, Legacy}`, but the
source accepts the lower-case string `'legacy'` and rejects `'Legacy'`:
at input `"Legacy"` (an enum name) it raises, and at `"legacy"` (not an
enum name) it does not. -/
theorem c9_counterexample :
    (setConsensusAlgorithm initialSettings ("Legacy")).err = true ∧
    ("Legacy" : String) ∈ (["Bayesian", "Legacy"] : List String) ∧
    (setConsensusAlgorithm initialSettings ("legacy")).err = false ∧
    ("legacy" : String) ∉ (["Bayesian", "Legacy"] : List String) := by
  refine ⟨by decide, by decide, by decide, by decide⟩

/-- C9, amended: `setConsensusAlgorithm` raises a ConfigError exactly
when its argument is neither the string `"Bayesian"` nor the string
`"legacy"` (the names are case-sensitive), and on failure the stored
settings are unchanged. -/
theorem c9_amended (s : ConsensSeqSettings) (v : String) :
    ((setConsensusAlgorithm s v).err = true ↔ ¬(v = "Bayesian" ∨ v = "legacy")) ∧
    ((setConsensusAlgorithm s v).err = true → (setConsensusAlgorithm s v).st = s) := by
  simp only [setConsensusAlgorithm]
  split_ifs <;> simp_all

/- ----------------------------------------------------------------- -/
/- C3: single-sequence mode.                                          -/
/- ----------------------------------------------------------------- -/

/-- C3, counterexample: the claim says the output base is `'N'` iff the
trace's confidence is below the threshold; but for a trace whose base
call itself is `'N'` with confidence 40 and threshold 30, the output
base is `'N'` although the recorded score 40 is not below 30. -/
theorem c3_counterexample :
    ¬(((makeSingleConsensus 1 (fun k => 'N') (fun k => (40 : Int)) 30).1.getD 0 ' ' = 'N') ↔
      ((makeSingleConsensus 1 (fun k => 'N') (fun k => (40 : Int)) 30).2.getD 0 0 < (30 : Int))) := by
  decide

/-- C3, amended: in single-sequence mode the output base at a column is
`'N'` iff the trace's confidence there is below the threshold or the
trace's base call there is itself `'N'`; the recorded confidence entry
is the trace's score unmodified in all cases. -/
theorem c3_amended (n : Nat) (seq1a : Nat → Char) (conf1 : Nat → Int) (t : Int) (i : Nat)
    (hi : i < n) :
    ((makeSingleConsensus n seq1a conf1 t).1.getD i ' ' = 'N'
      ↔ (conf1 i < t ∨ seq1a i = 'N')) ∧
    (makeSingleConsensus n seq1a conf1 t).2.getD i 0 = conf1 i := by
  unfold makeSingleConsensus
  simp only [List.map_map]
  rw [getD_map_range n i hi, getD_map_range n i hi]
  unfold singleColumn
  constructor
  · by_cases h : conf1 i < t <;> simp [h]
  · rfl

/-- C3 witness: the amended theorem applied at a concrete input. -/
theorem c3_amended_witness :
    ((makeSingleConsensus 1 (fun k => 'A') (fun k => (40 : Int)) 30).1.getD 0 ' ' = 'N'
      ↔ ((40 : Int) < 30 ∨ ('A' : Char) = 'N')) ∧
    (makeSingleConsensus 1 (fun k => 'A') (fun k => (40 : Int)) 30).2.getD 0 0 = 40 :=
  c3_amended 1 (fun k => 'A') (fun k => (40 : Int)) 30 0 (by decide)

/- ----------------------------------------------------------------- -/
/- C10: deleteBases refines modifyBases with spaces.                  -/
/- ----------------------------------------------------------------- -/

/-- C10: for an in-range closed range `[a, b]`, `deleteBases a b`
produces exactly the state (resulting consensus and pushed undo record)
and events of `modifyBases a b` applied to a string of `b - a + 1`
spaces, with no error raised, and both publish a `consensus_changed`
event carrying `(a, b)`. -/
theorem c10_delete_modify_equiv (cons : List Char) (us rs : List UndoRecord) (a b : Nat)
    (hab : a ≤ b) (hb : b < cons.length) :
    modifyBases (ModState.mk cons us rs) a b (List.replicate (b - a + 1) ' ')
      = ((deleteBases (ModState.mk cons us rs) a b).1,
         (deleteBases (ModState.mk cons us rs) a b).2, false) ∧
    ConsEvent.consensus_changed a b ∈ (deleteBases (ModState.mk cons us rs) a b).2 := by
  have hswap : ¬ a > b := by omega
  unfold modifyBases deleteBases
  simp [hswap]

/-- C10 witness: the equivalence applied at a concrete input. -/
theorem c10_witness :
    modifyBases (ModState.mk ['A', 'C'] [] []) 0 1 (List.replicate (1 - 0 + 1) ' ')
      = ((deleteBases (ModState.mk ['A', 'C'] [] []) 0 1).1,
         (deleteBases (ModState.mk ['A', 'C'] [] []) 0 1).2, false) ∧
    ConsEvent.consensus_changed 0 1 ∈ (deleteBases (ModState.mk ['A', 'C'] [] []) 0 1).2 :=
  c10_delete_modify_equiv ['A', 'C'] [] [] 0 1 (by decide) (by decide)

/- ----------------------------------------------------------------- -/
/- C5, counterexample part.                                           -/
/- ----------------------------------------------------------------- -/

/-- C5, counterexample: an all-`'N'` consensus shorter than the window
is returned unchanged (trimConsensus is a no-op when
`len(consensus) < winsize`), so with window 2 and minGood 1 the
single-`'N'` consensus is not blanked. -/
theorem c5_counterexample :
    (0 : Int) < 1 ∧
    trimConsensus (List.replicate 1 'N') 2 1 = List.replicate 1 'N' ∧
    List.replicate 1 'N' ≠ List.replicate 1 ' ' := by
  refine ⟨by decide, by decide, by decide⟩

/- ----------------------------------------------------------------- -/
/- C6: setAll batch semantics.                                        -/
/- ----------------------------------------------------------------- -/

theorem setMinConfScore_batch (s : ConsensSeqSettings) (v : Int) (h : s.notify_all = false) :
    (setMinConfScore s v).st.notify_all = false ∧
    ((setMinConfScore s v).st.change_made
      = (s.change_made || !(setMinConfScore s v).evs.isEmpty)) ∧
    (∀ e ∈ (setMinConfScore s v).evs, isFieldEvent e = true) ∧
    ((setMinConfScore s v).err = true ↔ ¬(v ≤ 61 ∧ 1 ≤ v)) := by
  simp only [setMinConfScore]
  split_ifs <;> simp_all [isFieldEvent] <;> omega

theorem setConsensusAlgorithm_batch (s : ConsensSeqSettings) (v : String)
    (h : s.notify_all = false) :
    (setConsensusAlgorithm s v).st.notify_all = false ∧
    ((setConsensusAlgorithm s v).st.change_made
      = (s.change_made || !(setConsensusAlgorithm s v).evs.isEmpty)) ∧
    (∀ e ∈ (setConsensusAlgorithm s v).evs, isFieldEvent e = true) ∧
    ((setConsensusAlgorithm s v).err = true ↔ ¬(v = "Bayesian" ∨ v = "legacy")) := by
  simp only [setConsensusAlgorithm]
  split_ifs <;> simp_all [isFieldEvent]

theorem setDoAutoTrim_batch (s : ConsensSeqSettings) (v : Bool) (h : s.notify_all = false) :
    (setDoAutoTrim s v).st.notify_all = false ∧
    ((setDoAutoTrim s v).st.change_made
      = (s.change_made || !(setDoAutoTrim s v).evs.isEmpty)) ∧
    (∀ e ∈ (setDoAutoTrim s v).evs, isFieldEvent e = true) ∧
    (setDoAutoTrim s v).err = false := by
  simp only [setDoAutoTrim]
  split_ifs <;> simp_all [isFieldEvent]

theorem setAutoTrimParams_batch (s : ConsensSeqSettings) (w c : Int) (h : s.notify_all = false) :
    (setAutoTrimParams s w c).st.notify_all = false ∧
    ((setAutoTrimParams s w c).st.change_made
      = (s.change_made || !(setAutoTrimParams s w c).evs.isEmpty)) ∧
    (∀ e ∈ (setAutoTrimParams s w c).evs, isFieldEvent e = true) ∧
    ((setAutoTrimParams s w c).err = true ↔ ¬(c ≤ w)) := by
  simp only [setAutoTrimParams]
  split_ifs <;> simp_all [isFieldEvent] <;> omega

theorem setTrimEndGaps_batch (s : ConsensSeqSettings) (v : Bool) (h : s.notify_all = false) :
    (setTrimEndGaps s v).st.notify_all = false ∧
    ((setTrimEndGaps s v).st.change_made
      = (s.change_made || !(setTrimEndGaps s v).evs.isEmpty)) ∧
    (∀ e ∈ (setTrimEndGaps s v).evs, isFieldEvent e = true) ∧
    (setTrimEndGaps s v).err = false := by
  simp only [setTrimEndGaps]
  split_ifs <;> simp_all [isFieldEvent]

theorem err_empty_min (s : ConsensSeqSettings) (v : Int) (he : (setMinConfScore s v).err = true) :
    (setMinConfScore s v).st = s ∧ (setMinConfScore s v).evs = [] := by
  revert he; simp only [setMinConfScore]; split_ifs <;> simp

theorem err_empty_alg (s : ConsensSeqSettings) (v : String)
    (he : (setConsensusAlgorithm s v).err = true) :
    (setConsensusAlgorithm s v).st = s ∧ (setConsensusAlgorithm s v).evs = [] := by
  revert he; simp only [setConsensusAlgorithm]; split_ifs <;> simp

theorem err_empty_atp (s : ConsensSeqSettings) (w c : Int)
    (he : (setAutoTrimParams s w c).err = true) :
    (setAutoTrimParams s w c).st = s ∧ (setAutoTrimParams s w c).evs = [] := by
  revert he; simp only [setAutoTrimParams]; split_ifs <;> simp

theorem isEmpty_append_bool {α : Type} (l1 l2 : List α) :
    (l1 ++ l2).isEmpty = (l1.isEmpty && l2.isEmpty) := by
  cases l1 <;> simp

theorem setAllBody_batch (s : ConsensSeqSettings) (mcs : Int) (alg : String) (dat : Bool)
    (params : Int × Int) (teg : Bool) (h : s.notify_all = false)
    (hcm : s.change_made = false) :
    (setAllBody s mcs alg dat params teg).st.notify_all = false ∧
    ((setAllBody s mcs alg dat params teg).st.change_made
      = !(setAllBody s mcs alg dat params teg).evs.isEmpty) ∧
    (∀ e ∈ (setAllBody s mcs alg dat params teg).evs, isFieldEvent e = true) ∧
    ((setAllBody s mcs alg dat params teg).err = true
      ↔ ¬((mcs ≤ 61 ∧ 1 ≤ mcs) ∧ (alg = "Bayesian" ∨ alg = "legacy") ∧ params.2 ≤ params.1)) := by
  obtain ⟨h1a, h1b, h1c, h1d⟩ := setMinConfScore_batch s mcs h
  simp only [setAllBody]
  by_cases e1 : (setMinConfScore s mcs).err = true
  · obtain ⟨hs1, he1⟩ := err_empty_min s mcs e1
    simp only [e1, if_true, hs1, he1]
    simp_all [isFieldEvent]
  · obtain ⟨h2a, h2b, h2c, h2d⟩ := setConsensusAlgorithm_batch (setMinConfScore s mcs).st alg h1a
    simp only [e1, if_false, Bool.false_eq_true]
    by_cases e2 : (setConsensusAlgorithm (setMinConfScore s mcs).st alg).err = true
    · obtain ⟨hs2, he2⟩ := err_empty_alg (setMinConfScore s mcs).st alg e2
      simp only [e2, if_true, hs2, he2, List.append_nil]
      refine ⟨h1a, ?_, h1c, ?_⟩
      · rw [h1b, hcm]
        simp
      · simp only [true_iff]
        intro hv
        exact (h2d.mp e2) hv.2.1
    · obtain ⟨h3a, h3b, h3c, h3d⟩ := setDoAutoTrim_batch
        (setConsensusAlgorithm (setMinConfScore s mcs).st alg).st dat h2a
      simp only [e2, if_false, Bool.false_eq_true, h3d]
      by_cases e4 : (setAutoTrimParams
          (setDoAutoTrim (setConsensusAlgorithm (setMinConfScore s mcs).st alg).st dat).st
          params.1 params.2).err = true
      · obtain ⟨hs4, he4⟩ := err_empty_atp
          (setDoAutoTrim (setConsensusAlgorithm (setMinConfScore s mcs).st alg).st dat).st
          params.1 params.2 e4
        simp only [e4, if_true, hs4, he4, List.append_nil]
        refine ⟨h3a, ?_, ?_, ?_⟩
        · rw [h3b, h2b, h1b, hcm]
          simp [isEmpty_append_bool, Bool.or_assoc]
        · intro e he
          rcases List.mem_append.mp he with he' | he'
          · rcases List.mem_append.mp he' with he'' | he''
            · exact h1c e he''
            · exact h2c e he''
          · exact h3c e he'
        · simp only [true_iff]
          intro hv
          exact ((setAutoTrimParams_batch
            (setDoAutoTrim (setConsensusAlgorithm (setMinConfScore s mcs).st alg).st dat).st
            params.1 params.2 h3a).2.2.2.mp e4) hv.2.2
      · obtain ⟨h5a, h5b, h5c, h5d⟩ := setTrimEndGaps_batch
          (setAutoTrimParams
            (setDoAutoTrim (setConsensusAlgorithm (setMinConfScore s mcs).st alg).st dat).st
            params.1 params.2).st teg
          (setAutoTrimParams_batch
            (setDoAutoTrim (setConsensusAlgorithm (setMinConfScore s mcs).st alg).st dat).st
            params.1 params.2 h3a).1
        obtain ⟨h4a, h4b, h4c, h4d⟩ := setAutoTrimParams_batch
          (setDoAutoTrim (setConsensusAlgorithm (setMinConfScore s mcs).st alg).st dat).st
          params.1 params.2 h3a
        simp only [e4, if_false, Bool.false_eq_true, h5d]
        refine ⟨h5a, ?_, ?_, ?_⟩
        · rw [h5b, h4b, h3b, h2b, h1b, hcm]
          simp [isEmpty_append_bool, Bool.or_assoc]
        · intro e he
          rcases List.mem_append.mp he with he' | he'
          · rcases List.mem_append.mp he' with he'' | he''
            · rcases List.mem_append.mp he'' with h3' | h3'
              · rcases List.mem_append.mp h3' with h4' | h4'
                · exact h1c e h4'
                · exact h2c e h4'
              · exact h3c e h3'
            · exact h4c e he''
          · exact h5c e he'
        · simp only [Bool.false_eq_true, false_iff, not_not]
          refine ⟨⟨?_, ?_⟩, ?_, ?_⟩
          · have hv1 := (not_iff_not.mpr h1d).mp (by simpa using e1)
            tauto
          · have hv1 := (not_iff_not.mpr h1d).mp (by simpa using e1)
            tauto
          · have hv2 := (not_iff_not.mpr h2d).mp (by simpa using e2)
            tauto
          · have hv4 := (not_iff_not.mpr h4d).mp (by simpa using e4)
            tauto

/-- C6: `setAll` always ends with `notify_all` restored to normal mode
(also when a setter raises, in which case `err = true` propagates the
ConfigError exactly when one of the batch values is invalid); it
publishes exactly one generic `settings_change` event iff at least one
setter actually changed a stored value (equivalently, iff a
field-specific change event was published), and the generic event is
never published between the setters of the batch, only at the end. -/
theorem c6_setAll (s : ConsensSeqSettings) (mcs : Int) (alg : String) (dat : Bool)
    (params : Int × Int) (teg : Bool) :
    (setAll s mcs alg dat params teg).st.notify_all = true ∧
    ((setAll s mcs alg dat params teg).evs.count SettingsEvent.settings_change
      = if (setAll s mcs alg dat params teg).evs.any isFieldEvent then 1 else 0) ∧
    (∀ e ∈ (setAll s mcs alg dat params teg).evs.dropLast, e ≠ SettingsEvent.settings_change) ∧
    ((setAll s mcs alg dat params teg).err = true
      ↔ ¬((mcs ≤ 61 ∧ 1 ≤ mcs) ∧ (alg = "Bayesian" ∨ alg = "legacy") ∧ params.2 ≤ params.1)) := by
  obtain ⟨hb1, hb2, hb3, hb4⟩ := setAllBody_batch
    { s with notify_all := false, change_made := false } mcs alg dat params teg rfl rfl
  simp only [setAll]
  refine ⟨by trivial, ?_, ?_, hb4⟩
  · simp only [hb2]
    cases hev : (setAllBody { s with notify_all := false, change_made := false }
        mcs alg dat params teg).evs with
    | nil => simp
    | cons e0 es =>
      have hfield : ∀ e ∈ e0 :: es, isFieldEvent e = true := hev ▸ hb3
      have hnotsc : ∀ e ∈ e0 :: es, e ≠ SettingsEvent.settings_change := by
        intro e he hcontra
        have := hfield e he
        rw [hcontra] at this
        simp [isFieldEvent] at this
      have hcount : (e0 :: es).count SettingsEvent.settings_change = 0 :=
        List.count_eq_zero.mpr (fun hmem => hnotsc _ hmem rfl)
      have he0 : isFieldEvent e0 = true := hfield e0 (List.mem_cons_self e0 es)
      have hces : List.count SettingsEvent.settings_change es = 0 :=
        List.count_eq_zero.mpr (fun hmem => hnotsc _ (List.mem_cons_of_mem _ hmem) rfl)
      have hne0 : e0 ≠ SettingsEvent.settings_change := hnotsc e0 (List.mem_cons_self e0 es)
      simp only [List.isEmpty_cons, Bool.not_false, eq_self_iff_true, if_true]
      simp [List.count_cons, List.count_append, hces, hne0, Ne.symm hne0, he0]
  · simp only [hb2]
    cases hev : (setAllBody { s with notify_all := false, change_made := false }
        mcs alg dat params teg).evs with
    | nil => simp
    | cons e0 es =>
      have hfield : ∀ e ∈ e0 :: es, isFieldEvent e = true := hev ▸ hb3
      simp only [List.isEmpty_cons, Bool.not_false, if_true]
      rw [List.dropLast_concat]
      intro e he hcontra
      have := hfield e he
      rw [hcontra] at this
      simp [isFieldEvent] at this

/- ----------------------------------------------------------------- -/
/- C7: modifyBases / undo / redo round trip.                          -/
/- ----------------------------------------------------------------- -/

theorem length_pySlice (l : List Char) (a b : Nat) (hb : b < l.length) :
    (pySlice l a b).length = b + 1 - a := by
  simp [pySlice]
  omega

theorem restore_slice (l : List Char) (a b : Nat) (hab : a ≤ b) :
    l.take a ++ (l.drop a).take (b + 1 - a) ++ l.drop (b + 1) = l := by
  rw [List.take_drop]
  have h1 : a + (b + 1 - a) = b + 1 := by omega
  rw [h1]
  have h2 : l.take a = (l.take (b + 1)).take a := by
    rw [List.take_take]
    congr 1
    omega
  rw [h2, List.take_append_drop, List.take_append_drop]

theorem drop_replaceRange (l mid : List Char) (a b : Nat) (ha : a ≤ l.length)
    (hmid : mid.length = b + 1 - a) :
    (replaceRange l a b mid).drop a = mid ++ l.drop (b + 1) := by
  rw [replaceRange, List.append_assoc]
  exact List.drop_left' (by simp [List.length_take]; omega)

theorem take_replaceRange (l mid : List Char) (a b : Nat) (ha : a ≤ l.length) :
    (replaceRange l a b mid).take a = l.take a := by
  rw [replaceRange, List.append_assoc]
  exact List.take_left' (by simp [List.length_take]; omega)

theorem dropB_replaceRange (l mid : List Char) (a b : Nat) (hab : a ≤ b) (ha : a ≤ l.length)
    (hmid : mid.length = b + 1 - a) :
    (replaceRange l a b mid).drop (b + 1) = l.drop (b + 1) := by
  rw [replaceRange]
  exact List.drop_left' (by simp [List.length_take]; omega)

theorem pySlice_replaceRange (l mid : List Char) (a b : Nat) (hab : a ≤ b) (ha : a ≤ l.length)
    (hmid : mid.length = b + 1 - a) :
    pySlice (replaceRange l a b mid) a b = mid := by
  rw [pySlice, drop_replaceRange l mid a b ha hmid]
  exact List.take_left' hmid

theorem replaceRange_restore (l mid : List Char) (a b : Nat) (hab : a ≤ b) (ha : a ≤ l.length)
    (hmid : mid.length = b + 1 - a) :
    replaceRange (replaceRange l a b mid) a b (pySlice l a b) = l := by
  rw [replaceRange, take_replaceRange l mid a b ha,
    dropB_replaceRange l mid a b hab ha hmid, pySlice]
  exact restore_slice l a b hab

/-- C7: for an in-range closed range `[a, b]` and a replacement string of
matching length, `modifyBases` does not raise, a subsequent `undo`
restores the consensus to exactly its prior content, and a subsequent
`redo` reproduces the post-edit consensus bit for bit. -/
theorem c7_modify_undo_redo (cons : List Char) (us rs : List UndoRecord) (a b : Nat)
    (news : List Char) (hab : a ≤ b) (hb : b < cons.length) (hlen : news.length = b - a + 1) :
    (modifyBases (ModState.mk cons us rs) a b news).2.2 = false ∧
    (undo (modifyBases (ModState.mk cons us rs) a b news).1).1.consensus = cons ∧
    (redo (undo (modifyBases (ModState.mk cons us rs) a b news).1).1).1.consensus
      = (modifyBases (ModState.mk cons us rs) a b news).1.consensus := by
  have hswap : ¬ a > b := by omega
  have ha : a ≤ cons.length := by omega
  have hlen' : news.length = b + 1 - a := by omega
  have hmod : modifyBases (ModState.mk cons us rs) a b news
      = (ModState.mk (replaceRange cons a b news)
          (UndoRecord.mk a b (pySlice cons a b) :: us) rs,
         ConsEvent.consensus_changed a b ::
           (if (UndoRecord.mk a b (pySlice cons a b) :: us).length = 1
            then [ConsEvent.undo_state_changed true] else []),
         false) := by
    simp only [modifyBases, if_neg hswap, hlen]
    simp [hswap]
  rw [hmod]
  have hundo : (undo (ModState.mk (replaceRange cons a b news)
      (UndoRecord.mk a b (pySlice cons a b) :: us) rs)).1
      = ModState.mk cons us
          (UndoRecord.mk a b news :: rs) := by
    simp only [undo]
    rw [pySlice_replaceRange cons news a b hab ha hlen',
      replaceRange_restore cons news a b hab ha hlen']
  rw [hundo]
  refine ⟨rfl, rfl, ?_⟩
  simp only [redo]

/-- C7 witness: the round trip applied at a concrete input. -/
theorem c7_witness :
    (modifyBases (ModState.mk ['A', 'C', 'G', 'T'] [] []) 1 2 ['T', 'A']).2.2 = false ∧
    (undo (modifyBases (ModState.mk ['A', 'C', 'G', 'T'] [] []) 1 2 ['T', 'A']).1).1.consensus
      = ['A', 'C', 'G', 'T'] ∧
    (redo (undo (modifyBases
        (ModState.mk ['A', 'C', 'G', 'T'] [] []) 1 2 ['T', 'A']).1).1).1.consensus
      = (modifyBases (ModState.mk ['A', 'C', 'G', 'T'] [] []) 1 2 ['T', 'A']).1.consensus :=
  c7_modify_undo_redo ['A', 'C', 'G', 'T'] [] [] 1 2 ['T', 'A'] (by decide) (by decide) (by decide)

/- ----------------------------------------------------------------- -/
/- C2: legacy consensus.                                              -/
/- ----------------------------------------------------------------- -/

set_option maxHeartbeats 1000000 in
theorem legacyColumn_eq_spec (a1 a2 : Char) (s1 s2 t : Int) (ht : 1 ≤ t) :
    legacyColumn a1 a2 s1 s2 t = legacyColumnSpec a1 a2 s1 s2 t := by
  simp only [legacyColumn, legacyColumnSpec]
  split_ifs <;> simp only [Prod.mk.injEq] <;> refine ⟨?_, ?_⟩ <;>
    first
      | rfl
      | omega
      | tauto

/-- C2: in legacy mode, per column: a gap/`'N'` position contributes
sentinel score `-1`; with both scores clearing the threshold, differing
bases give `'N'` and agreeing bases give the base; exactly one clearing
gives that sequence's base; neither clearing gives `'N'`; the recorded
confidence entry is always the larger of the two per-sequence scores,
also when the recorded base is `'N'`. -/
theorem c2_legacy (n : Nat) (seq1a seq2a : Nat → Char) (ind1 ind2 : Nat → Nat)
    (conf1 conf2 : Nat → Int) (t : Int) (ht : 1 ≤ t) (i : Nat) (hi : i < n) :
    (makeLegacyConsensus n seq1a seq2a ind1 ind2 conf1 conf2 t).1.getD i ' '
      = (legacyColumnSpec (seq1a i) (seq2a i) (conf1 (ind1 i)) (conf2 (ind2 i)) t).1 ∧
    (makeLegacyConsensus n seq1a seq2a ind1 ind2 conf1 conf2 t).2.getD i 0
      = max (if seq1a i ≠ '-' ∧ seq1a i ≠ 'N' then conf1 (ind1 i) else -1)
          (if seq2a i ≠ '-' ∧ seq2a i ≠ 'N' then conf2 (ind2 i) else -1) := by
  unfold makeLegacyConsensus
  simp only [List.map_map]
  rw [getD_map_range n i hi, getD_map_range n i hi]
  rw [Function.comp_apply, Function.comp_apply,
    legacyColumn_eq_spec (seq1a i) (seq2a i) (conf1 (ind1 i)) (conf2 (ind2 i)) t ht]
  exact ⟨rfl, rfl⟩

/-- C2 witness: the legacy column description applied at a concrete
input (sequence 1 reads `'A'` at confidence 40, sequence 2 reads `'C'`
at confidence 35, threshold 30: a high-confidence disagreement). -/
theorem c2_witness :
    (makeLegacyConsensus 1 (fun k => 'A') (fun k => 'C') (fun k => k) (fun k => k)
        (fun k => (40 : Int)) (fun k => (35 : Int)) 30).1.getD 0 ' '
      = (legacyColumnSpec 'A' 'C' 40 35 30).1 ∧
    (makeLegacyConsensus 1 (fun k => 'A') (fun k => 'C') (fun k => k) (fun k => k)
        (fun k => (40 : Int)) (fun k => (35 : Int)) 30).2.getD 0 0
      = max (if ('A' : Char) ≠ '-' ∧ ('A' : Char) ≠ 'N' then (40 : Int) else -1)
          (if ('C' : Char) ≠ '-' ∧ ('C' : Char) ≠ 'N' then (35 : Int) else -1) :=
  c2_legacy 1 (fun k => 'A') (fun k => 'C') (fun k => k) (fun k => k)
    (fun k => (40 : Int)) (fun k => (35 : Int)) 30 (by decide) 0 (by decide)

/- ----------------------------------------------------------------- -/
/- C4 and C5: quality trimming.                                       -/
/- ----------------------------------------------------------------- -/

theorem trimLeftLoop_zero (cv : List Int) (n w : Nat) (b : Int) (g : Int) (i : Nat)
    (hcv : ∀ k, cv.getD k 0 = 0) :
    (trimLeftLoop cv n w b g i).2 = g := by
  induction g, i using trimLeftLoop.induct cv n w b with
  | case1 g i h ih =>
    rw [trimLeftLoop, dif_pos h, ih, hcv, hcv]
    omega
  | case2 g i h =>
    rw [trimLeftLoop, dif_neg h]

theorem trimRightLoop_zero (cv : List Int) (w : Nat) (b : Int) (il : Nat) (g : Int) (idx : Int)
    (hcv : ∀ k, cv.getD k 0 = 0) :
    (trimRightLoop cv w b il g idx).2 = g := by
  induction g, idx using trimRightLoop.induct cv w b il with
  | case1 g idx h ih =>
    rw [trimRightLoop, dif_pos h, ih, hcv, hcv]
    omega
  | case2 g idx h =>
    rw [trimRightLoop, dif_neg h]

theorem getD_replicate_zero (n k : Nat) :
    (List.replicate n (0 : Int)).getD k 0 = 0 := by
  simp only [List.getD_eq_getElem?_getD, List.getElem?_replicate]
  split <;> rfl

/-- C5, amended: an all-`'N'` consensus whose length is at least the
window size is blanked entirely by `trimConsensus` whenever
`minGood ≥ 1`: no window ever holds a good base, so the final
`num_good < basecnt` test fails and the whole string is replaced by
spaces. -/
theorem c5_all_n_blanked (n w : Nat) (b : Int) (hb : 1 ≤ b) (hw : w ≤ n) :
    trimConsensus (List.replicate n 'N') w b = List.replicate n ' ' := by
  have hmap : (List.replicate n 'N').map base_to_int = List.replicate n 0 := by
    simp [base_to_int, List.map_replicate]
  have hcv : ∀ k, (List.replicate n (0 : Int)).getD k 0 = 0 := getD_replicate_zero n
  have hsum : ∀ m, ((List.replicate n (0 : Int)).drop m).sum = 0 := by
    intro m
    simp [List.drop_replicate]
  have hsumt : ∀ m, ((List.replicate n (0 : Int)).take m).sum = 0 := by
    intro m
    simp [List.take_replicate]
  simp only [trimConsensus, List.length_replicate, hmap, hsum, hsumt]
  rw [if_neg (by omega : ¬ n < w)]
  rw [trimRightLoop_zero _ _ _ _ _ _ hcv]
  rw [if_pos (by omega : (0 : Int) < b)]

theorem trimLeftLoop_le (cv : List Int) (n w : Nat) (b : Int) (g : Int) (i : Nat) :
    i + w ≤ n → (trimLeftLoop cv n w b g i).1 + w ≤ n := by
  induction g, i using trimLeftLoop.induct cv n w b with
  | case1 g i hc ih =>
    intro h
    rw [trimLeftLoop, dif_pos hc]
    exact ih (by omega)
  | case2 g i hc =>
    intro h
    rw [trimLeftLoop, dif_neg hc]
    exact h

theorem trimRightLoop_le (cv : List Int) (w : Nat) (b : Int) (il : Nat) (g : Int) (idx : Int) :
    (trimRightLoop cv w b il g idx).1 ≤ idx := by
  induction g, idx using trimRightLoop.induct cv w b il with
  | case1 g idx hc ih =>
    rw [trimRightLoop, dif_pos hc]
    omega
  | case2 g idx hc =>
    rw [trimRightLoop, dif_neg hc]

theorem trimRightLoop_ge (cv : List Int) (w : Nat) (b : Int) (il : Nat) (g : Int) (idx : Int) :
    (il : Int) + w - 1 ≤ idx → (il : Int) + w - 1 ≤ (trimRightLoop cv w b il g idx).1 := by
  induction g, idx using trimRightLoop.induct cv w b il with
  | case1 g idx hc ih =>
    intro h
    rw [trimRightLoop, dif_pos hc]
    exact ih (by omega)
  | case2 g idx hc =>
    intro h
    rw [trimRightLoop, dif_neg hc]
    exact h

theorem getD_append {α : Type} (l1 l2 : List α) (i : Nat) (d : α) :
    (l1 ++ l2).getD i d = if i < l1.length then l1.getD i d else l2.getD (i - l1.length) d := by
  by_cases h : i < l1.length
  · rw [if_pos h]
    simp only [List.getD_eq_getElem?_getD, List.getElem?_append_left h]
  · rw [if_neg h]
    simp only [List.getD_eq_getElem?_getD, List.getElem?_append_right (by omega : l1.length ≤ i)]

theorem getD_replicate {α : Type} (n i : Nat) (c d : α) :
    (List.replicate n c).getD i d = if i < n then c else d := by
  simp only [List.getD_eq_getElem?_getD, List.getElem?_replicate]
  split <;> rfl

theorem getD_drop {α : Type} (l : List α) (m i : Nat) (d : α) :
    (l.drop m).getD i d = l.getD (m + i) d := by
  induction m generalizing l with
  | zero => simp
  | succ k ih =>
    cases l with
    | nil => simp
    | cons x xs =>
      rw [List.drop_succ_cons, ih xs]
      have hidx : k + 1 + i = (k + i) + 1 := by omega
      rw [hidx]
      rfl

theorem getD_take {α : Type} (l : List α) (m i : Nat) (d : α) (h : i < m) :
    (l.take m).getD i d = l.getD i d := by
  simp only [List.getD_eq_getElem?_getD, List.getElem?_take_of_lt h]

theorem getD_of_length_le {α : Type} (l : List α) (i : Nat) (d : α) (h : l.length ≤ i) :
    l.getD i d = d := by
  simp only [List.getD_eq_getElem?_getD, List.getElem?_eq_none h, Option.getD_none]

theorem trimConsensus_shape (cons : List Char) (w : Nat) (b : Int) :
    trimConsensus cons w b = cons ∨
    trimConsensus cons w b = List.replicate cons.length ' ' ∨
    ∃ L R : Nat, L ≤ R + 1 ∧ R < cons.length ∧
      trimConsensus cons w b
        = List.replicate L ' ' ++ (cons.drop L).take (R + 1 - L)
            ++ List.replicate (cons.length - (R + 1)) ' ' := by
  by_cases hshort : cons.length < w
  · left
    simp [trimConsensus, hshort]
  · by_cases hnil : cons.length = 0
    · have hcons : cons = [] := List.length_eq_zero.mp hnil
      subst hcons
      have hw : w = 0 := by omega
      subst hw
      left
      simp only [trimConsensus]
      rw [if_neg (by simp)]
      rw [trimLeftLoop, dif_neg (by omega)]
      rw [trimRightLoop, dif_neg (by simp)]
      split <;> simp
    · -- main case: cons nonempty and at least as long as the window
      simp only [trimConsensus]
      rw [if_neg hshort]
      have hL := trimLeftLoop_le (cons.map base_to_int) cons.length w b
        (((cons.map base_to_int).take w).sum) 0 (by omega)
      have hRle := trimRightLoop_le (cons.map base_to_int) w b
        (trimLeftLoop (cons.map base_to_int) cons.length w b
          (((cons.map base_to_int).take w).sum) 0).1
        (((cons.map base_to_int).drop ((cons.map base_to_int).length - w)).sum)
        ((cons.length : Int) - 1)
      have hRge := trimRightLoop_ge (cons.map base_to_int) w b
        (trimLeftLoop (cons.map base_to_int) cons.length w b
          (((cons.map base_to_int).take w).sum) 0).1
        (((cons.map base_to_int).drop ((cons.map base_to_int).length - w)).sum)
        ((cons.length : Int) - 1) (by push_cast; omega)
      split
      · right; left
        rfl
      · right; right
        refine ⟨(trimLeftLoop (cons.map base_to_int) cons.length w b
            (((cons.map base_to_int).take w).sum) 0).1,
          (trimRightLoop (cons.map base_to_int) w b
            (trimLeftLoop (cons.map base_to_int) cons.length w b
              (((cons.map base_to_int).take w).sum) 0).1
            (((cons.map base_to_int).drop ((cons.map base_to_int).length - w)).sum)
            ((cons.length : Int) - 1)).1.toNat, by omega, by omega, rfl⟩

theorem trimConsensus_length (cons : List Char) (w : Nat) (b : Int) :
    (trimConsensus cons w b).length = cons.length := by
  rcases trimConsensus_shape cons w b with h | h | ⟨L, R, hLR, hR, h⟩ <;> rw [h]
  · simp
  · simp only [List.length_append, List.length_take, List.length_drop, List.length_replicate]
    omega

theorem trimConsensus_mask (cons : List Char) (w : Nat) (b : Int) :
    ∃ L R : Nat, ∀ i : Nat,
      (trimConsensus cons w b).getD i ' '
        = if L ≤ i ∧ i ≤ R then cons.getD i ' ' else ' ' := by
  rcases trimConsensus_shape cons w b with h | h | ⟨L, R, hLR, hR, h⟩
  · refine ⟨0, cons.length, fun i => ?_⟩
    rw [h]
    by_cases hi : i ≤ cons.length
    · rw [if_pos ⟨Nat.zero_le i, hi⟩]
    · rw [if_neg (by omega), getD_of_length_le cons i ' ' (by omega)]
  · refine ⟨cons.length, 0, fun i => ?_⟩
    rw [h, getD_replicate]
    by_cases hc : cons.length ≤ i ∧ i ≤ 0
    · rw [if_pos hc, getD_of_length_le cons i ' ' (by omega), if_neg (by omega)]
    · rw [if_neg hc]
      split <;> rfl
  · refine ⟨L, R, fun i => ?_⟩
    rw [h, List.append_assoc, getD_append]
    simp only [List.length_replicate]
    by_cases h1 : i < L
    · rw [if_pos h1, getD_replicate, if_pos h1, if_neg (by omega)]
    · rw [if_neg h1, getD_append]
      have hmidlen : ((cons.drop L).take (R + 1 - L)).length = R + 1 - L := by
        simp only [List.length_take, List.length_drop]
        omega
      rw [hmidlen]
      by_cases h2 : i ≤ R
      · have hin : i - L < R + 1 - L := by omega
        rw [if_pos hin, getD_take _ _ _ _ hin, getD_drop]
        have hadd : L + (i - L) = i := by omega
        rw [hadd, if_pos ⟨by omega, h2⟩]
      · rw [if_neg (by omega), getD_replicate,
          if_neg (show ¬(L ≤ i ∧ i ≤ R) from fun hc => h2 hc.2)]
        split <;> rfl

theorem c4_left_loop :
    (trimLeftLoop [0, 0, 0, 1, 1, 1, 1, 0, 0, 0] 10 3 2 0 0).1 = 2 ∧
    (trimLeftLoop [0, 0, 0, 1, 1, 1, 1, 0, 0, 0] 10 3 2 0 0).2 = 2 := by
  have h : trimLeftLoop [0, 0, 0, 1, 1, 1, 1, 0, 0, 0] 10 3 2 0 0 = (2, 2) := by
    rw [trimLeftLoop, dif_pos (by decide)]
    show trimLeftLoop [0, 0, 0, 1, 1, 1, 1, 0, 0, 0] 10 3 2 1 1 = (2, 2)
    rw [trimLeftLoop, dif_pos (by decide)]
    show trimLeftLoop [0, 0, 0, 1, 1, 1, 1, 0, 0, 0] 10 3 2 2 2 = (2, 2)
    rw [trimLeftLoop, dif_neg (by decide)]
  rw [h]
  exact ⟨rfl, rfl⟩

theorem c4_right_loop :
    (trimRightLoop [0, 0, 0, 1, 1, 1, 1, 0, 0, 0] 3 2 2 0 (((10 : Nat) : Int) - 1)).1 = 7 ∧
    (trimRightLoop [0, 0, 0, 1, 1, 1, 1, 0, 0, 0] 3 2 2 0 (((10 : Nat) : Int) - 1)).2 = 2 := by
  have h : trimRightLoop [0, 0, 0, 1, 1, 1, 1, 0, 0, 0] 3 2 2 0 (((10 : Nat) : Int) - 1)
      = (7, 2) := by
    rw [trimRightLoop, dif_pos (by decide)]
    show trimRightLoop [0, 0, 0, 1, 1, 1, 1, 0, 0, 0] 3 2 2 1 8 = (7, 2)
    rw [trimRightLoop, dif_pos (by decide)]
    show trimRightLoop [0, 0, 0, 1, 1, 1, 1, 0, 0, 0] 3 2 2 2 7 = (7, 2)
    rw [trimRightLoop, dif_neg (by decide)]
  rw [h]
  exact ⟨rfl, rfl⟩

theorem c4_example :
    trimConsensus ['N', 'N', 'N', 'A', 'C', 'G', 'T', 'N', 'N', 'N'] 3 2
      = [' ', ' ', 'N', 'A', 'C', 'G', 'T', 'N', ' ', ' '] := by
  simp only [trimConsensus]
  rw [if_neg (by decide)]
  rw [show List.map base_to_int ['N', 'N', 'N', 'A', 'C', 'G', 'T', 'N', 'N', 'N']
      = [0, 0, 0, 1, 1, 1, 1, 0, 0, 0] from by decide]
  rw [show List.length ['N', 'N', 'N', 'A', 'C', 'G', 'T', 'N', 'N', 'N'] = 10 from by decide]
  rw [show (List.take 3 ([0, 0, 0, 1, 1, 1, 1, 0, 0, 0] : List Int)).sum = 0 from by decide]
  rw [show (List.length ([0, 0, 0, 1, 1, 1, 1, 0, 0, 0] : List Int)) = 10 from by decide]
  rw [show (List.drop (10 - 3) ([0, 0, 0, 1, 1, 1, 1, 0, 0, 0] : List Int)).sum = 0
    from by decide]
  rw [c4_left_loop.1, c4_right_loop.1, c4_right_loop.2]
  rw [if_neg (by decide)]
  decide

/-- C5 witness: the amended blanking theorem applied at a concrete
input. -/
theorem c5_all_n_blanked_witness :
    trimConsensus (List.replicate 3 'N') 2 1 = List.replicate 3 ' ' :=
  c5_all_n_blanked 3 2 1 (by decide) (by decide)

/-- C4: quality trimming of `"NNNACGTNNN"` with window 3 and minGood 2
yields exactly `"  NACGTN  "`; in general `trimConsensus` never changes
the length of the consensus, and there are cutoffs `L`, `R` such that
every position inside `[L, R]` is kept verbatim and every position
outside is replaced by a space. -/
theorem c4_trim :
    trimConsensus ['N', 'N', 'N', 'A', 'C', 'G', 'T', 'N', 'N', 'N'] 3 2
      = [' ', ' ', 'N', 'A', 'C', 'G', 'T', 'N', ' ', ' '] ∧
    (∀ (cons : List Char) (w : Nat) (b : Int),
      (trimConsensus cons w b).length = cons.length) ∧
    (∀ (cons : List Char) (w : Nat) (b : Int), ∃ L R : Nat, ∀ i : Nat,
      (trimConsensus cons w b).getD i ' '
        = if L ≤ i ∧ i ≤ R then cons.getD i ' ' else ' ') :=
  ⟨c4_example, trimConsensus_length, trimConsensus_mask⟩

/- ----------------------------------------------------------------- -/
/- C1 and C8: Bayesian consensus.                                     -/
/- ----------------------------------------------------------------- -/

theorem eprob_pos (s : ℝ) : 0 < eprob s :=
  Real.rpow_pos_of_pos (by norm_num) _

theorem eprob_le_one (s : ℝ) (h : 0 ≤ s) : eprob s ≤ 1 :=
  Real.rpow_le_one_of_one_le_of_nonpos (by norm_num) (by
    apply div_nonpos_of_nonneg_of_nonpos h
    norm_num)

theorem eprob_lt_one (s : ℝ) (h : 0 < s) : eprob s < 1 :=
  Real.rpow_lt_one_of_one_lt_of_neg (by norm_num) (by
    apply div_neg_of_pos_of_neg h
    norm_num)

theorem eprob_antitone (s1 s2 : ℝ) (h : s1 ≤ s2) : eprob s2 ≤ eprob s1 := by
  apply (Real.rpow_le_rpow_left_iff (by norm_num : (1:ℝ) < 10)).mpr
  exact div_le_div_of_nonpos_of_le (by norm_num) h

theorem eprob_logb (s : ℝ) : Real.logb 10 (eprob s) = s / (-10) :=
  Real.logb_rpow (by norm_num) (by norm_num)

theorem phred_eq (x : ℝ) (hx : 0 ≤ x) :
    (if x > 0 then -10 * Real.logb 10 (1 - x) else 0) + 0.000001 = specPhred x := by
  simp only [specPhred]
  rcases eq_or_lt_of_le hx with h | h
  · rw [if_neg (by rw [← h]; exact lt_irrefl 0), if_pos h.symm]
  · rw [if_pos h, if_neg (ne_of_gt h)]

theorem getMostProbableBase_eq (p : Char → ℝ)
    (hA : 0 ≤ p 'A') (hT : 0 ≤ p 'T') (hG : 0 ≤ p 'G') (hC : 0 ≤ p 'C') :
    getMostProbableBase p = (specArgmaxBase p, specPhred (p (specArgmaxBase p))) := by
  simp only [getMostProbableBase]
  by_cases h1 : p 'T' > p 'A'
  · rw [if_pos h1]
    by_cases h2 : p 'G' > p 'T'
    · rw [if_pos h2]
      by_cases h3 : p 'C' > p 'G'
      · rw [if_pos h3]
        have ha : specArgmaxBase p = 'C' := by
          simp only [specArgmaxBase]
          rw [if_neg (fun hc => (not_le.mpr h1) hc.1),
            if_neg (fun hc => (not_le.mpr h2) hc.1),
            if_neg (not_le.mpr h3)]
        rw [ha, ← phred_eq (p 'C') hC]
      · rw [if_neg h3]
        have ha : specArgmaxBase p = 'G' := by
          simp only [specArgmaxBase]
          rw [if_neg (fun hc => (not_le.mpr h1) hc.1),
            if_neg (fun hc => (not_le.mpr h2) hc.1),
            if_pos (not_lt.mp h3)]
        rw [ha, ← phred_eq (p 'G') hG]
    · rw [if_neg h2]
      by_cases h3 : p 'C' > p 'T'
      · rw [if_pos h3]
        have ha : specArgmaxBase p = 'C' := by
          simp only [specArgmaxBase]
          rw [if_neg (fun hc => (not_le.mpr h1) hc.1),
            if_neg (fun hc => (not_le.mpr h3) hc.2),
            if_neg (by exact not_le.mpr (lt_of_le_of_lt (not_lt.mp h2) h3))]
        rw [ha, ← phred_eq (p 'C') hC]
      · rw [if_neg h3]
        have ha : specArgmaxBase p = 'T' := by
          simp only [specArgmaxBase]
          rw [if_neg (fun hc => (not_le.mpr h1) hc.1),
            if_pos ⟨not_lt.mp h2, not_lt.mp h3⟩]
        rw [ha, ← phred_eq (p 'T') hT]
  · rw [if_neg h1]
    by_cases h2 : p 'G' > p 'A'
    · rw [if_pos h2]
      by_cases h3 : p 'C' > p 'G'
      · rw [if_pos h3]
        have ha : specArgmaxBase p = 'C' := by
          simp only [specArgmaxBase]
          rw [if_neg (fun hc => (not_le.mpr h2) hc.2.1),
            if_neg (fun hc => (not_le.mpr (lt_of_le_of_lt (le_of_not_lt h1) h2)) hc.1),
            if_neg (not_le.mpr h3)]
        rw [ha, ← phred_eq (p 'C') hC]
      · rw [if_neg h3]
        have ha : specArgmaxBase p = 'G' := by
          simp only [specArgmaxBase]
          rw [if_neg (fun hc => (not_le.mpr h2) hc.2.1),
            if_neg (fun hc => (not_le.mpr (lt_of_le_of_lt (le_of_not_lt h1) h2)) hc.1),
            if_pos (not_lt.mp h3)]
        rw [ha, ← phred_eq (p 'G') hG]
    · rw [if_neg h2]
      by_cases h3 : p 'C' > p 'A'
      · rw [if_pos h3]
        have ha : specArgmaxBase p = 'C' := by
          simp only [specArgmaxBase]
          rw [if_neg (fun hc => (not_le.mpr h3) hc.2.2),
            if_neg (fun hc => (not_le.mpr (lt_of_le_of_lt (le_of_not_lt h1) h3)) hc.2),
            if_neg (by exact not_le.mpr (lt_of_le_of_lt (le_of_not_lt h2) h3))]
        rw [ha, ← phred_eq (p 'C') hC]
      · rw [if_neg h3]
        have ha : specArgmaxBase p = 'A' := by
          simp only [specArgmaxBase]
          rw [if_pos ⟨le_of_not_lt h1, le_of_not_lt h2, le_of_not_lt h3⟩]
        rw [ha, ← phred_eq (p 'A') hA]

theorem calcPosterior_eq_spec (b1 : Char) (s1 : ℝ) (b2 : Char) (s2 : ℝ) (x : Char) :
    calcPosteriorBasePrDist b1 s1 b2 s2 x = specPosterior b1 s1 b2 s2 x := by
  simp only [calcPosteriorBasePrDist, specPosterior, defineBasePrDist, specCallDist, eprob,
    List.map_cons, List.map_nil, List.sum_cons, List.sum_nil]
  congr 1
  ring

theorem defineBasePrDist_nonneg (b : Char) (s : ℝ) (x : Char) (h : 0 ≤ s) :
    0 ≤ defineBasePrDist b s x := by
  simp only [defineBasePrDist]
  split
  · have := eprob_le_one s h
    linarith
  · have := eprob_pos s
    linarith

theorem bayes_denom_pos (b1 : Char) (s1 : ℝ) (b2 : Char) (s2 : ℝ)
    (hb1 : b1 = 'A' ∨ b1 = 'T' ∨ b1 = 'G' ∨ b1 = 'C')
    (hb2 : b2 = 'A' ∨ b2 = 'T' ∨ b2 = 'G' ∨ b2 = 'C')
    (h1 : 0 ≤ s1) (h2 : 0 ≤ s2) :
    0 < defineBasePrDist b2 s2 'A' * defineBasePrDist b1 s1 'A'
      + defineBasePrDist b2 s2 'T' * defineBasePrDist b1 s1 'T'
      + defineBasePrDist b2 s2 'G' * defineBasePrDist b1 s1 'G'
      + defineBasePrDist b2 s2 'C' * defineBasePrDist b1 s1 'C' := by
  have he1 := eprob_pos s1
  have he2 := eprob_pos s2
  have hl1 := eprob_le_one s1 h1
  have hl2 := eprob_le_one s2 h2
  rcases hb1 with rfl | rfl | rfl | rfl <;> rcases hb2 with rfl | rfl | rfl | rfl <;>
    simp [defineBasePrDist] <;>
    nlinarith [mul_pos he1 he2, mul_nonneg (by linarith : (0:ℝ) ≤ 1 - eprob s1)
      (by linarith : (0:ℝ) ≤ 1 - eprob s2)]

theorem calcPosterior_nonneg (b1 : Char) (s1 : ℝ) (b2 : Char) (s2 : ℝ) (x : Char)
    (hb1 : b1 = 'A' ∨ b1 = 'T' ∨ b1 = 'G' ∨ b1 = 'C')
    (hb2 : b2 = 'A' ∨ b2 = 'T' ∨ b2 = 'G' ∨ b2 = 'C')
    (h1 : 0 ≤ s1) (h2 : 0 ≤ s2) :
    0 ≤ calcPosteriorBasePrDist b1 s1 b2 s2 x := by
  simp only [calcPosteriorBasePrDist]
  apply div_nonneg
  · exact mul_nonneg (defineBasePrDist_nonneg b2 s2 x h2) (defineBasePrDist_nonneg b1 s1 x h1)
  · exact le_of_lt (bayes_denom_pos b1 s1 b2 s2 hb1 hb2 h1 h2)

theorem bayes_wrapper (q : Char × ℝ) (t : ℝ) :
    ((if q.2 ≥ t then q.1 else 'N'), q.2) = ((if q.2 < t then 'N' else q.1), q.2) := by
  by_cases h : q.2 ≥ t
  · rw [if_pos h, if_neg (not_lt.mpr h)]
  · rw [if_neg h, if_pos (lt_of_not_ge h)]

theorem bayesColumn_eq_spec (a1 a2 : Char) (s1 s2 t : ℝ)
    (ha1 : a1 ∈ alignChars) (ha2 : a2 ∈ alignChars) (h1 : 0 ≤ s1) (h2 : 0 ≤ s2) :
    bayesColumn a1 a2 s1 s2 t = specBayesColumn a1 a2 s1 s2 t := by
  have hbs : (if (a1 ≠ '-' ∧ a1 ≠ 'N') ∧ (a2 ≠ '-' ∧ a2 ≠ 'N') then
        getMostProbableBase (calcPosteriorBasePrDist a1 s1 a2 s2)
      else if a1 ≠ '-' ∧ a1 ≠ 'N' then (a1, s1)
      else if a2 ≠ '-' ∧ a2 ≠ 'N' then (a2, s2)
      else ('N', 1))
      = (if (a1 ≠ '-' ∧ a1 ≠ 'N') ∧ (a2 ≠ '-' ∧ a2 ≠ 'N') then
        (specArgmaxBase (specPosterior a1 s1 a2 s2),
          specPhred (specPosterior a1 s1 a2 s2 (specArgmaxBase (specPosterior a1 s1 a2 s2))))
      else if a1 ≠ '-' ∧ a1 ≠ 'N' then (a1, s1)
      else if a2 ≠ '-' ∧ a2 ≠ 'N' then (a2, s2)
      else ('N', 1)) := by
    by_cases hu : (a1 ≠ '-' ∧ a1 ≠ 'N') ∧ (a2 ≠ '-' ∧ a2 ≠ 'N')
    · rw [if_pos hu, if_pos hu]
      have hb1 : a1 = 'A' ∨ a1 = 'T' ∨ a1 = 'G' ∨ a1 = 'C' := by
        have hm := ha1
        simp only [alignChars, List.mem_cons, List.not_mem_nil, or_false] at hm
        have hu1 := hu.1
        tauto
      have hb2 : a2 = 'A' ∨ a2 = 'T' ∨ a2 = 'G' ∨ a2 = 'C' := by
        have hm := ha2
        simp only [alignChars, List.mem_cons, List.not_mem_nil, or_false] at hm
        have hu2 := hu.2
        tauto
      have hfun : calcPosteriorBasePrDist a1 s1 a2 s2 = specPosterior a1 s1 a2 s2 :=
        funext (calcPosterior_eq_spec a1 s1 a2 s2)
      have hnn : ∀ x : Char, 0 ≤ specPosterior a1 s1 a2 s2 x := by
        intro x
        rw [← hfun]
        exact calcPosterior_nonneg a1 s1 a2 s2 x hb1 hb2 h1 h2
      rw [hfun]
      exact getMostProbableBase_eq (specPosterior a1 s1 a2 s2)
        (hnn 'A') (hnn 'T') (hnn 'G') (hnn 'C')
    · rw [if_neg hu, if_neg hu]
  simp only [bayesColumn, specBayesColumn]
  rw [hbs]
  exact bayes_wrapper _ t

/-- C1: in Bayesian mode, every alignment column of
`makeBayesianConsensus` (both the recorded base and the recorded
confidence entry) equals the column description in the specification:
`('N', 1)` when neither aligned character is usable, the usable
sequence's base and trace confidence verbatim when exactly one is, and
otherwise the argmax of the Bayes posterior (prior from sequence 1,
likelihood from sequence 2, error probability `10 ^ (s / -10)` split as
`1 - e` / `e/3`), ties broken A > T > G > C, scored
`-10 * log10(1 - posterior)` (or `0` when the posterior is `0`) plus
`1e-6`; a score below the threshold records `'N'` but the confidence
entry always keeps the computed score. -/
theorem c1_bayesian (n : Nat) (seq1a seq2a : Nat → Char) (ind1 ind2 : Nat → Nat)
    (conf1 conf2 : Nat → ℝ) (t : ℝ)
    (ha1 : ∀ i, seq1a i ∈ alignChars) (ha2 : ∀ i, seq2a i ∈ alignChars)
    (hc1 : ∀ j, 0 ≤ conf1 j) (hc2 : ∀ j, 0 ≤ conf2 j)
    (i : Nat) (hi : i < n) :
    (makeBayesianConsensus n seq1a seq2a ind1 ind2 conf1 conf2 t).1.getD i ' '
      = (specBayesColumn (seq1a i) (seq2a i) (conf1 (ind1 i)) (conf2 (ind2 i)) t).1 ∧
    (makeBayesianConsensus n seq1a seq2a ind1 ind2 conf1 conf2 t).2.getD i 0
      = (specBayesColumn (seq1a i) (seq2a i) (conf1 (ind1 i)) (conf2 (ind2 i)) t).2 := by
  unfold makeBayesianConsensus
  simp only [List.map_map]
  rw [getD_map_range n i hi, getD_map_range n i hi]
  rw [Function.comp_apply, Function.comp_apply,
    bayesColumn_eq_spec (seq1a i) (seq2a i) (conf1 (ind1 i)) (conf2 (ind2 i)) t
      (ha1 i) (ha2 i) (hc1 (ind1 i)) (hc2 (ind2 i))]
  exact ⟨rfl, rfl⟩

theorem posterior_concordant_called (b : Char) (s : ℝ)
    (hb : b = 'A' ∨ b = 'T' ∨ b = 'G' ∨ b = 'C') :
    calcPosteriorBasePrDist b s b s b
      = (1 - eprob s)^2 / ((1 - eprob s)^2 + (eprob s)^2 / 3) := by
  rcases hb with rfl | rfl | rfl | rfl <;>
    · simp [calcPosteriorBasePrDist, defineBasePrDist]
      congr 1 <;> ring

theorem posterior_concordant_other (b x : Char) (s : ℝ)
    (hb : b = 'A' ∨ b = 'T' ∨ b = 'G' ∨ b = 'C')
    (hx : x = 'A' ∨ x = 'T' ∨ x = 'G' ∨ x = 'C') (hne : x ≠ b) :
    calcPosteriorBasePrDist b s b s x
      = (eprob s)^2 / 9 / ((1 - eprob s)^2 + (eprob s)^2 / 3) := by
  rcases hb with rfl | rfl | rfl | rfl <;> rcases hx with rfl | rfl | rfl | rfl <;>
    first
      | exact absurd rfl hne
      | (simp [calcPosteriorBasePrDist, defineBasePrDist]
         congr 1 <;> ring)

theorem specArgmax_of_strict_max (p : Char → ℝ) (b : Char)
    (hb : b = 'A' ∨ b = 'T' ∨ b = 'G' ∨ b = 'C')
    (hstrict : ∀ x : Char, (x = 'A' ∨ x = 'T' ∨ x = 'G' ∨ x = 'C') → x ≠ b → p x < p b) :
    specArgmaxBase p = b := by
  rcases hb with rfl | rfl | rfl | rfl
  · have hT := hstrict 'T' (by tauto) (by decide)
    have hG := hstrict 'G' (by tauto) (by decide)
    have hC := hstrict 'C' (by tauto) (by decide)
    simp only [specArgmaxBase]
    rw [if_pos ⟨le_of_lt hT, le_of_lt hG, le_of_lt hC⟩]
  · have hA := hstrict 'A' (by tauto) (by decide)
    have hG := hstrict 'G' (by tauto) (by decide)
    have hC := hstrict 'C' (by tauto) (by decide)
    simp only [specArgmaxBase]
    rw [if_neg (fun hc => absurd hc.1 (not_le.mpr hA)),
      if_pos ⟨le_of_lt hG, le_of_lt hC⟩]
  · have hA := hstrict 'A' (by tauto) (by decide)
    have hT := hstrict 'T' (by tauto) (by decide)
    have hC := hstrict 'C' (by tauto) (by decide)
    simp only [specArgmaxBase]
    rw [if_neg (fun hc => absurd hc.2.1 (not_le.mpr hA)),
      if_neg (fun hc => absurd hc.1 (not_le.mpr hT)),
      if_pos (le_of_lt hC)]
  · have hA := hstrict 'A' (by tauto) (by decide)
    have hT := hstrict 'T' (by tauto) (by decide)
    have hG := hstrict 'G' (by tauto) (by decide)
    simp only [specArgmaxBase]
    rw [if_neg (fun hc => absurd hc.2.2 (not_le.mpr hA)),
      if_neg (fun hc => absurd hc.2 (not_le.mpr hT)),
      if_neg (not_le.mpr hG)]

theorem specArgmax_val_of_other_eq (p : Char → ℝ) (b : Char) (q : ℝ)
    (hb : b = 'A' ∨ b = 'T' ∨ b = 'G' ∨ b = 'C')
    (heq : ∀ x : Char, (x = 'A' ∨ x = 'T' ∨ x = 'G' ∨ x = 'C') → x ≠ b → p x = q)
    (hlt : p b < q) :
    p (specArgmaxBase p) = q := by
  rcases hb with rfl | rfl | rfl | rfl
  · have hT := heq 'T' (by tauto) (by decide)
    have hG := heq 'G' (by tauto) (by decide)
    have hC := heq 'C' (by tauto) (by decide)
    simp only [specArgmaxBase]
    rw [if_neg (fun hc => absurd hc.1 (not_le.mpr (by rw [hT]; exact hlt))),
      if_pos ⟨by rw [hT, hG], by rw [hT, hC]⟩]
    exact hT
  · have hA := heq 'A' (by tauto) (by decide)
    have hG := heq 'G' (by tauto) (by decide)
    have hC := heq 'C' (by tauto) (by decide)
    simp only [specArgmaxBase]
    rw [if_pos ⟨by rw [hA]; exact le_of_lt hlt, by rw [hA, hG], by rw [hA, hC]⟩]
    exact hA
  · have hA := heq 'A' (by tauto) (by decide)
    have hT := heq 'T' (by tauto) (by decide)
    have hC := heq 'C' (by tauto) (by decide)
    simp only [specArgmaxBase]
    rw [if_pos ⟨by rw [hA, hT], by rw [hA]; exact le_of_lt hlt, by rw [hA, hC]⟩]
    exact hA
  · have hA := heq 'A' (by tauto) (by decide)
    have hT := heq 'T' (by tauto) (by decide)
    have hG := heq 'G' (by tauto) (by decide)
    simp only [specArgmaxBase]
    rw [if_pos ⟨by rw [hA, hT], by rw [hA, hG], by rw [hA]; exact le_of_lt hlt⟩]
    exact hA

theorem phred_score_gt (a y : ℝ) (hy0 : 0 < y) (hy : y < eprob a) :
    a < -10 * Real.logb 10 y + 0.000001 := by
  have hlog : Real.logb 10 y < Real.logb 10 (eprob a) :=
    Real.logb_lt_logb (by norm_num) hy0 hy
  rw [eprob_logb a] at hlog
  have h2 : -10 * Real.logb 10 y > -10 * (a / (-10)) := by nlinarith
  have h3 : -10 * (a / (-10)) = a := by ring
  linarith [h2, h3.symm.le]

theorem eprob_pow_eq (a : ℝ) (k : ℕ) (hk : (a / (-10)) * (k : ℝ) = -1) :
    (eprob a) ^ k = 1 / 10 := by
  rw [eprob, ← Real.rpow_natCast ((10 : ℝ) ^ (a / (-10 : ℝ))) k,
    ← Real.rpow_mul (by norm_num : (0:ℝ) ≤ 10), hk]
  rw [show (-1 : ℝ) = ((-1 : ℤ) : ℝ) by norm_num, Real.rpow_intCast]
  norm_num

theorem eprob_one_gt : (0.79 : ℝ) < eprob 1 := by
  by_contra h
  push_neg at h
  have hp : (eprob 1) ^ (10:ℕ) ≤ (0.79 : ℝ) ^ (10:ℕ) :=
    pow_le_pow_left₀ (le_of_lt (eprob_pos 1)) h 10
  rw [eprob_pow_eq 1 10 (by norm_num)] at hp
  norm_num at hp

theorem eprob_one_lt : eprob 1 < (0.795 : ℝ) := by
  by_contra h
  push_neg at h
  have hp : (0.795 : ℝ) ^ (10:ℕ) ≤ (eprob 1) ^ (10:ℕ) :=
    pow_le_pow_left₀ (by norm_num) h 10
  rw [eprob_pow_eq 1 10 (by norm_num)] at hp
  norm_num at hp

theorem eprob_two_lt : eprob 2 < (3 / 4 : ℝ) := by
  by_contra h
  push_neg at h
  have hp : (3 / 4 : ℝ) ^ (5:ℕ) ≤ (eprob 2) ^ (5:ℕ) :=
    pow_le_pow_left₀ (by norm_num) h 5
  rw [eprob_pow_eq 2 5 (by norm_num)] at hp
  norm_num at hp

/-- C8: combining two concordant calls `(b, s)` and `(b, s)` with equal
integer Phred scores `1 ≤ s ≤ 61` under Bayesian mode yields a recorded
consensus confidence score strictly greater than `s`. -/
theorem c8_concordant (b : Char) (s : Nat) (t : ℝ)
    (hb : b = 'A' ∨ b = 'T' ∨ b = 'G' ∨ b = 'C') (h1 : 1 ≤ s) (h61 : s ≤ 61) :
    (s : ℝ) < (bayesColumn b b (s : ℝ) (s : ℝ) t).2 := by
  have hs0 : (0:ℝ) ≤ (s:ℝ) := by positivity
  have hs1r : (1:ℝ) ≤ (s:ℝ) := by exact_mod_cast h1
  have hu : (b ≠ '-' ∧ b ≠ 'N') ∧ (b ≠ '-' ∧ b ≠ 'N') := by
    rcases hb with rfl | rfl | rfl | rfl <;>
      exact ⟨⟨by decide, by decide⟩, ⟨by decide, by decide⟩⟩
  have hnn : ∀ x : Char, 0 ≤ calcPosteriorBasePrDist b (s:ℝ) b (s:ℝ) x := fun x =>
    calcPosterior_nonneg b _ b _ x hb hb hs0 hs0
  simp only [bayesColumn]
  rw [if_pos hu, getMostProbableBase_eq _ (hnn 'A') (hnn 'T') (hnn 'G') (hnn 'C')]
  have hcalled := posterior_concordant_called b (s:ℝ) hb
  have hother := fun (x : Char) hx hne => posterior_concordant_other b x (s:ℝ) hb hx hne
  have he0 : 0 < eprob (s:ℝ) := eprob_pos _
  have he1 : eprob (s:ℝ) < 1 := eprob_lt_one _ (by linarith)
  have hD : 0 < (1 - eprob (s:ℝ))^2 + (eprob (s:ℝ))^2 / 3 := by
    nlinarith [sq_nonneg (1 - eprob (s:ℝ)), sq_nonneg (eprob (s:ℝ)), mul_pos he0 he0]
  rcases Nat.lt_or_ge s 2 with hlt2 | hge2
  · -- the boundary case s = 1: the called base is no longer the argmax,
    -- but the winning posterior still gives a score above 1
    have hseq : s = 1 := by omega
    subst hseq
    simp only [Nat.cast_one] at hcalled hother he0 he1 hD hnn ⊢
    have hgt : (0.79:ℝ) < eprob 1 := eprob_one_gt
    have hlt : eprob 1 < (0.795:ℝ) := eprob_one_lt
    have hql : calcPosteriorBasePrDist b 1 b 1 b
        < (eprob 1)^2 / 9 / ((1 - eprob 1)^2 + (eprob 1)^2 / 3) := by
      rw [hcalled]
      apply (div_lt_div_right hD).mpr
      nlinarith [mul_pos (show (0:ℝ) < eprob 1 / 3 - (1 - eprob 1) by linarith)
        (show (0:ℝ) < eprob 1 / 3 + (1 - eprob 1) by linarith)]
    have hval : calcPosteriorBasePrDist b 1 b 1
        (specArgmaxBase (calcPosteriorBasePrDist b 1 b 1))
        = (eprob 1)^2 / 9 / ((1 - eprob 1)^2 + (eprob 1)^2 / 3) :=
      specArgmax_val_of_other_eq (calcPosteriorBasePrDist b 1 b 1) b
        ((eprob 1)^2 / 9 / ((1 - eprob 1)^2 + (eprob 1)^2 / 3)) hb hother hql
    rw [hval, specPhred,
      if_neg (ne_of_gt (div_pos (by positivity) hD))]
    have hy : 1 - (eprob 1)^2 / 9 / ((1 - eprob 1)^2 + (eprob 1)^2 / 3)
        = ((1 - eprob 1)^2 + 2 * (eprob 1)^2 / 9) / ((1 - eprob 1)^2 + (eprob 1)^2 / 3) := by
      field_simp
      ring
    rw [hy]
    apply phred_score_gt
    · apply div_pos _ hD
      nlinarith [sq_nonneg (1 - eprob 1), mul_pos he0 he0]
    · rw [div_lt_iff hD]
      nlinarith [hgt, hlt, mul_pos he0 he0, sq_nonneg (eprob 1 - 0.79),
        sq_nonneg (0.795 - eprob 1)]
  · -- s ≥ 2: the called base stays the argmax and reinforcement is strict
    have hs2r : (2:ℝ) ≤ (s:ℝ) := by exact_mod_cast hge2
    have he34 : eprob (s:ℝ) < 3/4 :=
      lt_of_le_of_lt (eprob_antitone 2 (s:ℝ) hs2r) eprob_two_lt
    have hmax : ∀ x : Char, (x = 'A' ∨ x = 'T' ∨ x = 'G' ∨ x = 'C') → x ≠ b →
        calcPosteriorBasePrDist b (s:ℝ) b (s:ℝ) x
          < calcPosteriorBasePrDist b (s:ℝ) b (s:ℝ) b := by
      intro x hx hne
      rw [hother x hx hne, hcalled]
      apply (div_lt_div_right hD).mpr
      nlinarith [mul_pos (show (0:ℝ) < (1 - eprob (s:ℝ)) - eprob (s:ℝ) / 3 by linarith)
        (show (0:ℝ) < (1 - eprob (s:ℝ)) + eprob (s:ℝ) / 3 by linarith)]
    rw [specArgmax_of_strict_max (calcPosteriorBasePrDist b (s:ℝ) b (s:ℝ)) b hb hmax,
      hcalled, specPhred,
      if_neg (ne_of_gt (div_pos (pow_pos (by linarith : (0:ℝ) < 1 - eprob (s:ℝ)) 2) hD))]
    have hy : 1 - (1 - eprob (s:ℝ))^2 / ((1 - eprob (s:ℝ))^2 + (eprob (s:ℝ))^2 / 3)
        = ((eprob (s:ℝ))^2 / 3) / ((1 - eprob (s:ℝ))^2 + (eprob (s:ℝ))^2 / 3) := by
      field_simp
    rw [hy]
    apply phred_score_gt
    · exact div_pos (by positivity) hD
    · rw [div_lt_iff hD]
      nlinarith [mul_pos he0 (mul_pos (show (0:ℝ) < 3 - 4 * eprob (s:ℝ) by linarith)
        (show (0:ℝ) < 1 - eprob (s:ℝ) by linarith))]

/-- C1 witness: the Bayesian column equivalence applied at a concrete
input. -/
theorem c1_witness :
    (makeBayesianConsensus 1 (fun k => 'A') (fun k => 'C') (fun k => k) (fun k => k)
        (fun k => (40 : ℝ)) (fun k => (35 : ℝ)) 30).1.getD 0 ' '
      = (specBayesColumn 'A' 'C' 40 35 30).1 ∧
    (makeBayesianConsensus 1 (fun k => 'A') (fun k => 'C') (fun k => k) (fun k => k)
        (fun k => (40 : ℝ)) (fun k => (35 : ℝ)) 30).2.getD 0 0
      = (specBayesColumn 'A' 'C' 40 35 30).2 :=
  c1_bayesian 1 (fun k => 'A') (fun k => 'C') (fun k => k) (fun k => k)
    (fun k => (40 : ℝ)) (fun k => (35 : ℝ)) 30
    (fun i => by change 'A' ∈ alignChars; decide)
    (fun i => by change 'C' ∈ alignChars; decide)
    (fun j => by norm_num) (fun j => by norm_num)
    0 (by decide)

/-- C8 witness: the reinforcement inequality applied at a concrete
input. -/
theorem c8_witness :
    ((30 : Nat) : ℝ) < (bayesColumn 'A' 'A' ((30 : Nat) : ℝ) ((30 : Nat) : ℝ) 30).2 :=
  c8_concordant 'A' 30 30 (Or.inl rfl) (by norm_num) (by norm_num)
